import Mathlib

/-!
Verification of the notes CRUD service in
`src/notes_backend/src/api/main.py`.

The Python service keeps an in-memory `dict[UUID, Note]`. We embed it
shallowly:

* UUIDs become `Nat`; `uuid4()` is modelled as a fresh-id supply
  (`nextId`) held in the state, which captures its contract of producing
  an identifier distinct from every identifier produced before.
* `datetime.utcnow()` becomes a logical clock (`clock : Nat`) held in the
  state; each operation that reads the clock also advances it, encoding
  the assumption that successive clock reads are strictly increasing.
* The `dict` becomes an insertion-ordered association list with Python
  dict semantics: updating an existing key replaces the value in place,
  a new key is appended at the end, `del` removes the entry.
* pydantic validators (`validate_title_non_empty`,
  `validate_title_if_present`) become `Except`-returning smart
  constructors; Python `str.strip()` becomes `pyStrip`.
-/

namespace NotesApi

/-- Strip leading and trailing whitespace from a character list, the
behaviour of Python `str.strip()`. -/
def stripList (l : List Char) : List Char :=
  ((l.dropWhile Char.isWhitespace).reverse.dropWhile Char.isWhitespace).reverse

/-- Python `str.strip()` on strings. -/
def pyStrip (s : String) : String :=
  ⟨stripList s.data⟩

/-- The error outcomes of the service layer: `KeyError("not_found")`
becomes `notFound`; a pydantic `ValueError` raised by a title validator
becomes `validationError` carrying the message from the source. -/
inductive ApiError where
  | notFound
  | validationError (msg : String)
deriving DecidableEq, Repr

/-- The `Note` pydantic model: id, title, optional content and the two
timestamps. -/
structure Note where
  id : Nat
  title : String
  content : Option String
  created_at : Nat
  updated_at : Nat
deriving DecidableEq, Repr

/-- The `NoteCreate` schema: a required title and optional content. -/
structure NoteCreate where
  title : String
  content : Option String
deriving DecidableEq, Repr

/-- The `NoteUpdate` schema: both fields optional. -/
structure NoteUpdate where
  title : Option String
  content : Option String
deriving DecidableEq, Repr

/-- Constructing a `NoteCreate`, running `validate_title_non_empty`: the
title must be non-empty after stripping and is stored stripped. -/
def mkNoteCreate (title : String) (content : Option String) :
    Except ApiError NoteCreate :=
  if pyStrip title = "" then
    .error (.validationError "title must be a non-empty string")
  else
    .ok { title := pyStrip title, content := content }

/-- Constructing a `NoteUpdate`, running `validate_title_if_present`: a
missing title passes through, a present one must be non-empty after
stripping and is stored stripped. -/
def mkNoteUpdate (title : Option String) (content : Option String) :
    Except ApiError NoteUpdate :=
  match title with
  | none => .ok { title := none, content := content }
  | some t =>
    if pyStrip t = "" then
      .error (.validationError "title must be a non-empty string when provided")
    else
      .ok { title := some (pyStrip t), content := content }

/-- pydantic maps an absent `content` field and an explicit JSON `null`
both to `None`; a present string is kept. -/
def parseUpdateContent : Option (Option String) → Option String
  | none => none
  | some none => none
  | some (some c) => some c

/-- Constructing a `Note` (as `Note(**data)` does) re-runs the inherited
`validate_title_non_empty` validator: reject a blank title, store it
stripped. -/
def mkNote (id : Nat) (title : String) (content : Option String)
    (created_at : Nat) (updated_at : Nat) : Except ApiError Note :=
  if pyStrip title = "" then
    .error (.validationError "title must be a non-empty string")
  else
    .ok { id := id, title := pyStrip title, content := content,
          created_at := created_at, updated_at := updated_at }

/-- Lookup in the insertion-ordered association list modelling the
Python dict (`self._store.get(note_id)`). -/
def dictGet (k : Nat) : List (Nat × Note) → Option Note
  | [] => none
  | (k2, v) :: rest => if k2 = k then some v else dictGet k rest

/-- Assignment `self._store[k] = v` with Python dict semantics: an
existing key keeps its position and gets the new value, a new key is
appended at the end. -/
def dictInsert (k : Nat) (v : Note) (l : List (Nat × Note)) :
    List (Nat × Note) :=
  if (dictGet k l).isSome then
    l.map (fun q => if q.1 = k then (k, v) else q)
  else
    l ++ [(k, v)]

/-- Deletion `del self._store[k]`: drop the entries bearing key `k`,
keep the rest in order. -/
def dictDelete (k : Nat) : List (Nat × Note) → List (Nat × Note)
  | [] => []
  | (k2, v) :: rest =>
    if k2 = k then dictDelete k rest
    else (k2, v) :: dictDelete k rest

/-- The state of a `NotesService` instance: the in-memory store,
together with the fresh-id supply modelling `uuid4()` and the logical
clock modelling `datetime.utcnow()`. -/
structure NotesState where
  store : List (Nat × Note)
  nextId : Nat
  clock : Nat
deriving DecidableEq, Repr

/-- The state of a freshly constructed `NotesService`: empty store. -/
def initState : NotesState :=
  { store := [], nextId := 0, clock := 0 }

/-- `NotesService.create`: read the clock, build the `Note` with a fresh
id and `created_at = updated_at = now`, insert it, return it. -/
def NotesService.create (s : NotesState) (payload : NoteCreate) :
    Except ApiError (Note × NotesState) :=
  let now := s.clock
  match mkNote s.nextId payload.title payload.content now now with
  | .error e => .error e
  | .ok note =>
    .ok (note, { store := dictInsert note.id note s.store,
                 nextId := s.nextId + 1, clock := s.clock + 1 })

/-- `NotesService.list`: the dict values in insertion order. -/
def NotesService.list (s : NotesState) : List Note :=
  s.store.map Prod.snd

/-- `NotesService.get`: `KeyError` when the id is absent. -/
def NotesService.get (s : NotesState) (note_id : Nat) : Except ApiError Note :=
  match dictGet note_id s.store with
  | none => .error .notFound
  | some note => .ok note

/-- The title fed to `Note(**data)` during update: `data["title"]` is
overwritten exactly when `payload.title is not None`. -/
def chooseTitle (payload : NoteUpdate) (note : Note) : String :=
  match payload.title with
  | some t => t
  | none => note.title

/-- The content fed to `Note(**data)` during update: `data["content"]`
is overwritten exactly when `payload.content is not None`. -/
def chooseContent (payload : NoteUpdate) (note : Note) : Option String :=
  match payload.content with
  | some c => some c
  | none => note.content

/-- `NotesService.update`: `KeyError` when the id is absent; otherwise
copy the stored note, overwrite the fields the payload supplies, refresh
`updated_at` to now, rebuild the `Note` (re-running its validator) and
store it back under the same key. -/
def NotesService.update (s : NotesState) (note_id : Nat)
    (payload : NoteUpdate) : Except ApiError (Note × NotesState) :=
  match dictGet note_id s.store with
  | none => .error .notFound
  | some note =>
    let now := s.clock
    match mkNote note.id (chooseTitle payload note) (chooseContent payload note)
        note.created_at now with
    | .error e => .error e
    | .ok updated =>
      .ok (updated, { store := dictInsert note_id updated s.store,
                      nextId := s.nextId, clock := s.clock + 1 })

/-- `NotesService.delete`: `KeyError` when the id is absent, otherwise
remove the entry. -/
def NotesService.delete (s : NotesState) (note_id : Nat) :
    Except ApiError NotesState :=
  if (dictGet note_id s.store).isSome then
    .ok { s with store := dictDelete note_id s.store }
  else
    .error .notFound

/-- An HTTP response of the request layer: status code, optional note
body, optional error detail. -/
structure HttpResponse where
  status : Nat
  note : Option Note
  detail : Option String
deriving DecidableEq, Repr

/-- The `POST /notes` handler: FastAPI first validates the body into a
`NoteCreate` (a validator failure surfaces as 422 carrying the
validator message, the store untouched), then calls the service and
answers 201 with the created note. A pydantic error escaping the
handler itself would be a 500. -/
def create_note (s : NotesState) (title : String) (content : Option String) :
    HttpResponse × NotesState :=
  match mkNoteCreate title content with
  | .error (.validationError msg) =>
    ({ status := 422, note := none, detail := some msg }, s)
  | .error .notFound =>
    ({ status := 404, note := none, detail := some "Note not found" }, s)
  | .ok payload =>
    match NotesService.create s payload with
    | .error _ =>
      ({ status := 500, note := none, detail := some "Internal Server Error" }, s)
    | .ok (note, s2) =>
      ({ status := 201, note := some note, detail := none }, s2)

/-! ### Properties of `pyStrip` -/

theorem dropWhile_self (p : Char → Bool) (l : List Char) :
    (l.dropWhile p).dropWhile p = l.dropWhile p := by
  induction l with
  | nil => rfl
  | cons a t ih =>
    by_cases h : p a
    · simp [List.dropWhile_cons, h, ih]
    · simp [List.dropWhile_cons, h]

theorem length_dropWhile_le (p : Char → Bool) (l : List Char) :
    (l.dropWhile p).length ≤ l.length := by
  induction l with
  | nil => simp
  | cons a t ih =>
    by_cases h : p a
    · simp only [List.dropWhile_cons, h, if_true]
      exact Nat.le_trans ih (Nat.le_succ _)
    · simp [List.dropWhile_cons, h]

theorem head_false_of_dropWhile_fix (p : Char → Bool) (a : Char)
    (t : List Char) (h : (a :: t).dropWhile p = a :: t) : p a = false := by
  by_cases hp : p a
  · exfalso
    rw [List.dropWhile_cons, if_pos hp] at h
    have hlen := congrArg List.length h
    have hle := length_dropWhile_le p t
    simp at hlen
    omega
  · simpa using hp

theorem dropWhile_append_single (p : Char → Bool) (xs : List Char)
    (a : Char) :
    (xs ++ [a]).dropWhile p =
      if xs.dropWhile p = [] then [a].dropWhile p
      else xs.dropWhile p ++ [a] := by
  induction xs with
  | nil => simp
  | cons x t ih =>
    by_cases h : p x
    · simpa [List.dropWhile_cons, h] using ih
    · simp [List.dropWhile_cons, h]

theorem dropWhile_fix_stripRight (p : Char → Bool) (l : List Char)
    (h : l.dropWhile p = l) :
    ((l.reverse.dropWhile p).reverse).dropWhile p
      = (l.reverse.dropWhile p).reverse := by
  cases l with
  | nil => rfl
  | cons a t =>
    have ha : p a = false := head_false_of_dropWhile_fix p a t h
    rw [List.reverse_cons, dropWhile_append_single]
    by_cases hz : t.reverse.dropWhile p = []
    · simp [hz, List.dropWhile_cons, ha]
    · rw [if_neg hz, List.reverse_append]
      simp [List.dropWhile_cons, ha]

theorem stripList_idem (l : List Char) :
    stripList (stripList l) = stripList l := by
  show ((((((l.dropWhile Char.isWhitespace).reverse.dropWhile
      Char.isWhitespace).reverse).dropWhile Char.isWhitespace).reverse.dropWhile
      Char.isWhitespace)).reverse = stripList l
  rw [dropWhile_fix_stripRight Char.isWhitespace (l.dropWhile Char.isWhitespace)
    (dropWhile_self Char.isWhitespace l)]
  rw [List.reverse_reverse, dropWhile_self]
  rfl

theorem pyStrip_idem (s : String) : pyStrip (pyStrip s) = pyStrip s := by
  show String.mk (stripList (stripList s.data)) = String.mk (stripList s.data)
  rw [stripList_idem]

/-! ### Properties of the dict operations -/

theorem dictGet_mem {k : Nat} {v : Note} {l : List (Nat × Note)}
    (h : dictGet k l = some v) : (k, v) ∈ l := by
  induction l with
  | nil => simp [dictGet] at h
  | cons q rest ih =>
    obtain ⟨k2, v2⟩ := q
    by_cases hk : k2 = k
    · subst hk
      have h2 : v2 = v := by simpa [dictGet] using h
      subst h2
      exact List.mem_cons_self _ _
    · simp only [dictGet, if_neg hk] at h
      exact List.mem_cons_of_mem _ (ih h)

theorem dictGet_none {k : Nat} {l : List (Nat × Note)}
    (h : ∀ q ∈ l, q.1 ≠ k) : dictGet k l = none := by
  induction l with
  | nil => rfl
  | cons q rest ih =>
    obtain ⟨k2, v2⟩ := q
    have h1 : k2 ≠ k := h (k2, v2) (List.mem_cons_self _ _)
    simp only [dictGet, if_neg h1]
    exact ih (fun q hq => h q (List.mem_cons_of_mem _ hq))

theorem dictGet_map_replace (k : Nat) (v : Note) (l : List (Nat × Note)) :
    dictGet k (l.map (fun q => if q.1 = k then (k, v) else q))
      = (dictGet k l).map (fun _ => v) := by
  induction l with
  | nil => rfl
  | cons q rest ih =>
    obtain ⟨k2, v2⟩ := q
    simp only [List.map_cons]
    by_cases hk : k2 = k
    · have hhead : (if ((k2, v2) : Nat × Note).1 = k then (k, v) else (k2, v2))
          = (k, v) := if_pos hk
      rw [hhead]
      simp only [dictGet, if_pos rfl, if_pos hk]
      rfl
    · have hhead : (if ((k2, v2) : Nat × Note).1 = k then (k, v) else (k2, v2))
          = (k2, v2) := if_neg hk
      rw [hhead]
      simp only [dictGet, if_neg hk]
      exact ih

theorem dictGet_append_single_self {k : Nat} (v : Note)
    {l : List (Nat × Note)} (h : dictGet k l = none) :
    dictGet k (l ++ [(k, v)]) = some v := by
  induction l with
  | nil => simp [dictGet]
  | cons q rest ih =>
    obtain ⟨k2, v2⟩ := q
    by_cases hk : k2 = k
    · subst hk
      simp [dictGet] at h
    · simp only [dictGet, if_neg hk] at h
      simp only [List.cons_append, dictGet, if_neg hk]
      exact ih h

theorem dictGet_insert_self (k : Nat) (v : Note) (l : List (Nat × Note)) :
    dictGet k (dictInsert k v l) = some v := by
  unfold dictInsert
  cases hg : dictGet k l with
  | some w =>
    simp only [hg, Option.isSome_some, if_true]
    rw [dictGet_map_replace, hg]
    rfl
  | none =>
    simp only [hg, Option.isSome_none, Bool.false_eq_true, if_false]
    exact dictGet_append_single_self v hg

theorem dictGet_map_replace_ne {k2 k : Nat} (v : Note)
    (l : List (Nat × Note)) (hne : k2 ≠ k) :
    dictGet k2 (l.map (fun q => if q.1 = k then (k, v) else q))
      = dictGet k2 l := by
  have hne2 : ¬(k = k2) := fun h => hne h.symm
  induction l with
  | nil => rfl
  | cons q rest ih =>
    obtain ⟨k3, v3⟩ := q
    simp only [List.map_cons]
    by_cases hk : k3 = k
    · have hhead : (if ((k3, v3) : Nat × Note).1 = k then (k, v) else (k3, v3))
          = (k, v) := if_pos hk
      rw [hhead]
      simp only [dictGet, if_neg hne2, if_neg (hk ▸ hne2)]
      exact ih
    · have hhead : (if ((k3, v3) : Nat × Note).1 = k then (k, v) else (k3, v3))
          = (k3, v3) := if_neg hk
      rw [hhead]
      by_cases hk2 : k3 = k2
      · simp [dictGet, hk2]
      · simp only [dictGet, if_neg hk2]
        exact ih

theorem dictGet_append_single_ne {k2 k : Nat} (v : Note)
    (l : List (Nat × Note)) (hne : k2 ≠ k) :
    dictGet k2 (l ++ [(k, v)]) = dictGet k2 l := by
  have hne2 : ¬(k = k2) := fun h => hne h.symm
  induction l with
  | nil =>
    simp [dictGet, if_neg hne2]
  | cons q rest ih =>
    obtain ⟨k3, v3⟩ := q
    by_cases hk : k3 = k2
    · simp [dictGet, hk]
    · simp only [List.cons_append, dictGet, if_neg hk]
      exact ih

theorem dictGet_insert_ne {k2 k : Nat} (v : Note) (l : List (Nat × Note))
    (hne : k2 ≠ k) : dictGet k2 (dictInsert k v l) = dictGet k2 l := by
  unfold dictInsert
  by_cases hg : (dictGet k l).isSome
  · simp only [hg, if_true]
    exact dictGet_map_replace_ne v l hne
  · simp only [hg, if_false]
    exact dictGet_append_single_ne v l hne

theorem mem_dictDelete {q : Nat × Note} {k : Nat} {l : List (Nat × Note)}
    (h : q ∈ dictDelete k l) : q ∈ l := by
  induction l with
  | nil => simp [dictDelete] at h
  | cons q2 rest ih =>
    obtain ⟨k2, v2⟩ := q2
    by_cases hk : k2 = k
    · simp only [dictDelete, if_pos hk] at h
      exact List.mem_cons_of_mem _ (ih h)
    · simp only [dictDelete, if_neg hk] at h
      rcases List.mem_cons.mp h with h1 | h2
      · exact h1 ▸ List.mem_cons_self _ _
      · exact List.mem_cons_of_mem _ (ih h2)

theorem key_ne_of_mem_dictDelete {q : Nat × Note} {k : Nat}
    {l : List (Nat × Note)} (h : q ∈ dictDelete k l) : q.1 ≠ k := by
  induction l with
  | nil => simp [dictDelete] at h
  | cons q2 rest ih =>
    obtain ⟨k2, v2⟩ := q2
    by_cases hk : k2 = k
    · simp only [dictDelete, if_pos hk] at h
      exact ih h
    · simp only [dictDelete, if_neg hk] at h
      rcases List.mem_cons.mp h with h1 | h2
      · subst h1
        exact hk
      · exact ih h2

theorem dictGet_delete_self (k : Nat) (l : List (Nat × Note)) :
    dictGet k (dictDelete k l) = none :=
  dictGet_none (fun _ hq => key_ne_of_mem_dictDelete hq)

theorem dictGet_delete_ne {k2 k : Nat} (l : List (Nat × Note))
    (hne : k2 ≠ k) : dictGet k2 (dictDelete k l) = dictGet k2 l := by
  induction l with
  | nil => rfl
  | cons q rest ih =>
    obtain ⟨k3, v3⟩ := q
    by_cases hk : k3 = k
    · simp only [dictDelete, if_pos hk]
      rw [ih]
      have hk2 : ¬(k3 = k2) := fun h => hne (h ▸ hk)
      simp [dictGet, if_neg hk2]
    · simp only [dictDelete, if_neg hk]
      by_cases hk2 : k3 = k2
      · simp [dictGet, hk2]
      · simp only [dictGet, if_neg hk2]
        exact ih

theorem length_dictInsert_new {k : Nat} (v : Note) {l : List (Nat × Note)}
    (h : dictGet k l = none) :
    (dictInsert k v l).length = l.length + 1 := by
  unfold dictInsert
  simp [h]

theorem dictDelete_eq_self {k : Nat} {l : List (Nat × Note)}
    (h : ∀ q ∈ l, q.1 ≠ k) : dictDelete k l = l := by
  induction l with
  | nil => rfl
  | cons q rest ih =>
    obtain ⟨k2, v2⟩ := q
    have h1 : k2 ≠ k := h (k2, v2) (List.mem_cons_self _ _)
    simp only [dictDelete, if_neg h1]
    rw [ih (fun q hq => h q (List.mem_cons_of_mem _ hq))]

theorem length_dictDelete {k : Nat} {l : List (Nat × Note)}
    (hnd : (l.map Prod.fst).Nodup) (h : (dictGet k l).isSome) :
    (dictDelete k l).length + 1 = l.length := by
  induction l with
  | nil => simp [dictGet] at h
  | cons q rest ih =>
    obtain ⟨k2, v2⟩ := q
    simp only [List.map_cons, List.nodup_cons] at hnd
    by_cases hk : k2 = k
    · subst hk
      have hrest : dictDelete k2 rest = rest := by
        apply dictDelete_eq_self
        intro q hq hq2
        exact hnd.1 (hq2 ▸ List.mem_map_of_mem Prod.fst hq)
      simp [dictDelete, hrest]
    · simp only [dictGet, if_neg hk] at h
      simp only [dictDelete, if_neg hk, List.length_cons]
      rw [ih hnd.2 h]

theorem mem_dictInsert {q : Nat × Note} {k : Nat} {v : Note}
    {l : List (Nat × Note)} (h : q ∈ dictInsert k v l) :
    q = (k, v) ∨ q ∈ l := by
  unfold dictInsert at h
  by_cases hg : (dictGet k l).isSome
  · simp only [hg, if_true] at h
    rcases List.mem_map.mp h with ⟨r, hr, hrq⟩
    by_cases hk : r.1 = k
    · left
      rw [← hrq, if_pos hk]
    · right
      rw [← hrq, if_neg hk]
      exact hr
  · simp only [hg, if_false] at h
    rcases List.mem_append.mp h with h1 | h2
    · right
      exact h1
    · left
      simpa using h2

theorem keys_dictInsert_replace {k : Nat} (v : Note) {l : List (Nat × Note)}
    (h : (dictGet k l).isSome) :
    (dictInsert k v l).map Prod.fst = l.map Prod.fst := by
  unfold dictInsert
  simp only [h, if_true, List.map_map]
  apply List.map_congr_left
  intro q _
  by_cases hk : q.1 = k
  · simp [Function.comp, if_pos hk, hk]
  · simp [Function.comp, if_neg hk]

theorem keys_dictDelete_sublist (k : Nat) (l : List (Nat × Note)) :
    ((dictDelete k l).map Prod.fst).Sublist (l.map Prod.fst) := by
  induction l with
  | nil => simp [dictDelete]
  | cons q rest ih =>
    obtain ⟨k2, v2⟩ := q
    by_cases hk : k2 = k
    · simp only [dictDelete, if_pos hk, List.map_cons]
      exact ih.cons _
    · simp only [dictDelete, if_neg hk, List.map_cons]
      exact ih.cons₂ _

/-! ### Characterizations of the service operations -/

theorem get_absent {s : NotesState} {i : Nat}
    (hg : dictGet i s.store = none) :
    NotesService.get s i = .error .notFound := by
  unfold NotesService.get
  simp only [hg]

theorem get_found {s : NotesState} {i : Nat} {n : Note}
    (hg : dictGet i s.store = some n) : NotesService.get s i = .ok n := by
  unfold NotesService.get
  simp only [hg]

theorem create_eq_ok {s : NotesState} {p : NoteCreate} {n : Note}
    {s2 : NotesState} (h : NotesService.create s p = .ok (n, s2)) :
    pyStrip p.title ≠ "" ∧
    n = { id := s.nextId, title := pyStrip p.title, content := p.content,
          created_at := s.clock, updated_at := s.clock } ∧
    s2 = { store := dictInsert s.nextId n s.store,
           nextId := s.nextId + 1, clock := s.clock + 1 } := by
  unfold NotesService.create mkNote at h
  by_cases hg : pyStrip p.title = ""
  · simp [hg] at h
  · simp only [if_neg hg, Except.ok.injEq, Prod.mk.injEq] at h
    obtain ⟨hn, hs⟩ := h
    subst hn
    subst hs
    exact ⟨hg, rfl, rfl⟩

theorem create_ok {s : NotesState} {p : NoteCreate}
    (hg : pyStrip p.title ≠ "") :
    NotesService.create s p =
      .ok ({ id := s.nextId, title := pyStrip p.title, content := p.content,
             created_at := s.clock, updated_at := s.clock },
           { store := dictInsert s.nextId
               { id := s.nextId, title := pyStrip p.title,
                 content := p.content, created_at := s.clock,
                 updated_at := s.clock } s.store,
             nextId := s.nextId + 1, clock := s.clock + 1 }) := by
  unfold NotesService.create mkNote
  simp only [if_neg hg]

theorem create_fail {s : NotesState} {p : NoteCreate}
    (hg : pyStrip p.title = "") :
    NotesService.create s p =
      .error (.validationError "title must be a non-empty string") := by
  unfold NotesService.create mkNote
  simp [hg]

theorem update_absent {s : NotesState} {i : Nat} (p : NoteUpdate)
    (hg : dictGet i s.store = none) :
    NotesService.update s i p = .error .notFound := by
  unfold NotesService.update
  simp only [hg]

theorem update_eq_ok {s : NotesState} {i : Nat} {p : NoteUpdate} {n : Note}
    {s2 : NotesState} (h : NotesService.update s i p = .ok (n, s2)) :
    ∃ old, dictGet i s.store = some old ∧
      pyStrip (chooseTitle p old) ≠ "" ∧
      n = { id := old.id, title := pyStrip (chooseTitle p old),
            content := chooseContent p old, created_at := old.created_at,
            updated_at := s.clock } ∧
      s2 = { store := dictInsert i n s.store, nextId := s.nextId,
             clock := s.clock + 1 } := by
  unfold NotesService.update mkNote at h
  cases hg : dictGet i s.store with
  | none => simp [hg] at h
  | some old =>
    by_cases ht : pyStrip (chooseTitle p old) = ""
    · simp [hg, ht] at h
    · simp only [hg, if_neg ht, Except.ok.injEq, Prod.mk.injEq] at h
      obtain ⟨hn, hs⟩ := h
      subst hn
      subst hs
      exact ⟨old, rfl, ht, rfl, rfl⟩

theorem update_ok {s : NotesState} {i : Nat} {p : NoteUpdate} {old : Note}
    (hg : dictGet i s.store = some old)
    (ht : pyStrip (chooseTitle p old) ≠ "") :
    NotesService.update s i p =
      .ok ({ id := old.id, title := pyStrip (chooseTitle p old),
             content := chooseContent p old, created_at := old.created_at,
             updated_at := s.clock },
           { store := dictInsert i
               { id := old.id, title := pyStrip (chooseTitle p old),
                 content := chooseContent p old,
                 created_at := old.created_at, updated_at := s.clock } s.store,
             nextId := s.nextId, clock := s.clock + 1 }) := by
  unfold NotesService.update mkNote
  simp only [hg, if_neg ht]

theorem delete_eq_ok {s : NotesState} {i : Nat} {s2 : NotesState}
    (h : NotesService.delete s i = .ok s2) :
    (dictGet i s.store).isSome ∧
    s2 = { s with store := dictDelete i s.store } := by
  unfold NotesService.delete at h
  by_cases hg : (dictGet i s.store).isSome
  · rw [if_pos hg] at h
    simp only [Except.ok.injEq] at h
    exact ⟨hg, h.symm⟩
  · rw [if_neg hg] at h
    simp at h

theorem delete_ok {s : NotesState} {i : Nat}
    (hg : (dictGet i s.store).isSome) :
    NotesService.delete s i =
      .ok { s with store := dictDelete i s.store } := by
  unfold NotesService.delete
  rw [if_pos hg]

theorem delete_absent {s : NotesState} {i : Nat}
    (hg : dictGet i s.store = none) :
    NotesService.delete s i = .error .notFound := by
  have h2 : ¬((dictGet i s.store).isSome = true) := by simp [hg]
  unfold NotesService.delete
  rw [if_neg h2]

/-! ### The store invariant -/

/-- What the service guarantees of every stored note: the title is a
strip fixed point and non-empty, the timestamps are ordered and lie in
the past of the clock, the id was drawn from the id supply. -/
def NoteInv (n : Note) (clock nextId : Nat) : Prop :=
  pyStrip n.title = n.title ∧ n.title ≠ "" ∧
  n.created_at ≤ n.updated_at ∧ n.updated_at < clock ∧ n.id < nextId

instance (n : Note) (clock nextId : Nat) : Decidable (NoteInv n clock nextId) := by
  unfold NoteInv
  infer_instance

/-- The store invariant: keys are distinct, each entry is keyed by its
note's id, and each note satisfies `NoteInv`. -/
def StateInv (s : NotesState) : Prop :=
  (s.store.map Prod.fst).Nodup ∧
  ∀ q ∈ s.store, q.1 = q.2.id ∧ NoteInv q.2 s.clock s.nextId

instance (s : NotesState) : Decidable (StateInv s) := by
  unfold StateInv
  infer_instance

theorem initState_inv : StateInv initState := by
  constructor
  · simp [initState]
  · intro q hq
    simp [initState] at hq

theorem createInv {s : NotesState} {p : NoteCreate} {n : Note}
    {s2 : NotesState} (hs : StateInv s)
    (h : NotesService.create s p = .ok (n, s2)) : StateInv s2 := by
  obtain ⟨hg, hn, hst⟩ := create_eq_ok h
  obtain ⟨hnd, hmem⟩ := hs
  have hfresh : dictGet s.nextId s.store = none := by
    apply dictGet_none
    intro q hq heq
    have h1 := (hmem q hq).1
    have h2 := (hmem q hq).2.2.2.2.2
    omega
  subst hn
  subst hst
  have hins : dictInsert s.nextId
      { id := s.nextId, title := pyStrip p.title, content := p.content,
        created_at := s.clock, updated_at := s.clock } s.store
      = s.store ++ [(s.nextId,
        { id := s.nextId, title := pyStrip p.title, content := p.content,
          created_at := s.clock, updated_at := s.clock })] := by
    unfold dictInsert
    simp [hfresh]
  constructor
  · show ((dictInsert _ _ s.store).map Prod.fst).Nodup
    rw [hins]
    rw [List.map_append, List.nodup_append]
    refine ⟨hnd, List.nodup_singleton _, ?_⟩
    intro a ha hb
    simp at hb
    rcases List.mem_map.mp ha with ⟨q, hq, hqa⟩
    have h1 := (hmem q hq).1
    have h2 := (hmem q hq).2.2.2.2.2
    omega
  · intro q hq
    rw [hins] at hq
    rcases List.mem_append.mp hq with h1 | h2
    · obtain ⟨hkey, hinv⟩ := hmem q h1
      obtain ⟨ha, hb, hc, hd, he⟩ := hinv
      refine ⟨hkey, ha, hb, hc, ?_, ?_⟩
      · dsimp only
        omega
      · dsimp only
        omega
    · have hq2 : q = (s.nextId,
          { id := s.nextId, title := pyStrip p.title, content := p.content,
            created_at := s.clock, updated_at := s.clock }) := by
        simpa using h2
      subst hq2
      refine ⟨rfl, pyStrip_idem _, hg, le_refl _, ?_, ?_⟩
      · dsimp only
        omega
      · dsimp only
        omega

theorem updateInv {s : NotesState} {i : Nat} {p : NoteUpdate} {n : Note}
    {s2 : NotesState} (hs : StateInv s)
    (h : NotesService.update s i p = .ok (n, s2)) : StateInv s2 := by
  obtain ⟨old, hg, ht, hn, hst⟩ := update_eq_ok h
  obtain ⟨hnd, hmem⟩ := hs
  obtain ⟨hkey, hinv⟩ := hmem (i, old) (dictGet_mem hg)
  have hsome : (dictGet i s.store).isSome := by simp [hg]
  subst hn
  subst hst
  constructor
  · show ((dictInsert i _ s.store).map Prod.fst).Nodup
    rw [keys_dictInsert_replace _ hsome]
    exact hnd
  · intro q hq
    rcases mem_dictInsert hq with h1 | h2
    · subst h1
      have hkey2 : i = old.id := hkey
      have hc := hinv.2.2.1
      have hu := hinv.2.2.2.1
      have hid := hinv.2.2.2.2
      dsimp only at hc hu hid
      refine ⟨hkey2, pyStrip_idem _, ht, ?_, ?_, ?_⟩
      · show old.created_at ≤ s.clock
        omega
      · show s.clock < s.clock + 1
        omega
      · exact hid
    · obtain ⟨hkey2, hinv2⟩ := hmem q h2
      refine ⟨hkey2, hinv2.1, hinv2.2.1, hinv2.2.2.1, ?_, hinv2.2.2.2.2⟩
      have := hinv2.2.2.2.1
      dsimp only
      omega

theorem deleteInv {s : NotesState} {i : Nat} {s2 : NotesState}
    (hs : StateInv s) (h : NotesService.delete s i = .ok s2) :
    StateInv s2 := by
  obtain ⟨hsome, hst⟩ := delete_eq_ok h
  subst hst
  exact ⟨hs.1.sublist (keys_dictDelete_sublist i s.store),
         fun q hq => hs.2 q (mem_dictDelete hq)⟩

/-! ### Operation traces and reachability -/

/-- One mutating request against the service. -/
inductive Op where
  | create (title : String) (content : Option String)
  | update (id : Nat) (title : Option String) (content : Option String)
  | delete (id : Nat)
deriving DecidableEq, Repr

/-- Run one operation, validating its payload the way the request layer
does; `none` when the operation fails (validation error or not found). -/
def stepOp (s : NotesState) : Op → Option NotesState
  | .create t c =>
    match mkNoteCreate t c with
    | .error _ => none
    | .ok p =>
      match NotesService.create s p with
      | .error _ => none
      | .ok (_, s2) => some s2
  | .update i t c =>
    match mkNoteUpdate t c with
    | .error _ => none
    | .ok p =>
      match NotesService.update s i p with
      | .error _ => none
      | .ok (_, s2) => some s2
  | .delete i =>
    match NotesService.delete s i with
    | .error _ => none
    | .ok s2 => some s2

/-- The states the service can be in: everything reachable from the
empty store by successful operations. -/
inductive Reachable : NotesState → Prop where
  | init : Reachable initState
  | step {s s2 : NotesState} (op : Op) : Reachable s →
      stepOp s op = some s2 → Reachable s2

theorem stepOpInv {s s2 : NotesState} {op : Op} (hs : StateInv s)
    (h : stepOp s op = some s2) : StateInv s2 := by
  cases op with
  | create t c =>
    unfold stepOp at h
    cases hp : mkNoteCreate t c with
    | error e => simp [hp] at h
    | ok p =>
      simp only [hp] at h
      cases hc : NotesService.create s p with
      | error e => simp [hc] at h
      | ok r =>
        obtain ⟨n, s3⟩ := r
        simp only [hc, Option.some_inj] at h
        exact h ▸ createInv hs hc
  | update i t c =>
    unfold stepOp at h
    cases hp : mkNoteUpdate t c with
    | error e => simp [hp] at h
    | ok p =>
      simp only [hp] at h
      cases hc : NotesService.update s i p with
      | error e => simp [hc] at h
      | ok r =>
        obtain ⟨n, s3⟩ := r
        simp only [hc, Option.some_inj] at h
        exact h ▸ updateInv hs hc
  | delete i =>
    unfold stepOp at h
    cases hc : NotesService.delete s i with
    | error e => simp [hc] at h
    | ok s3 =>
      simp only [hc, Option.some_inj] at h
      exact h ▸ deleteInv hs hc

theorem reachable_inv {s : NotesState} (h : Reachable s) : StateInv s := by
  induction h with
  | init => exact initState_inv
  | step op hr hstep ih => exact stepOpInv ih hstep

/-- All ids stored in a state satisfying the invariant are below the id
supply, so the next id to be handed out is not yet a key. -/
theorem dictGet_nextId_none {s : NotesState} (hs : StateInv s) :
    dictGet s.nextId s.store = none := by
  apply dictGet_none
  intro q hq heq
  have h1 := (hs.2 q hq).1
  have h2 := (hs.2 q hq).2.2.2.2.2
  omega

/-- Run one operation leniently for id accounting: a failed operation
leaves the state unchanged and assigns no id; a successful create also
reports the id it assigned. -/
def applyOp (s : NotesState) : Op → NotesState × Option Nat
  | .create t c =>
    match mkNoteCreate t c with
    | .error _ => (s, none)
    | .ok p =>
      match NotesService.create s p with
      | .error _ => (s, none)
      | .ok (n, s2) => (s2, some n.id)
  | .update i t c =>
    match mkNoteUpdate t c with
    | .error _ => (s, none)
    | .ok p =>
      match NotesService.update s i p with
      | .error _ => (s, none)
      | .ok (_, s2) => (s2, none)
  | .delete i =>
    match NotesService.delete s i with
    | .error _ => (s, none)
    | .ok s2 => (s2, none)

/-- Run a list of operations, collecting the ids assigned by the
successful creates, in order. -/
def runOps (s : NotesState) : List Op → NotesState × List Nat
  | [] => (s, [])
  | op :: ops =>
    let r := applyOp s op
    let r2 := runOps r.1 ops
    (r2.1, match r.2 with
           | some i => i :: r2.2
           | none => r2.2)

theorem applyOp_nextId_le (s : NotesState) (op : Op) :
    s.nextId ≤ (applyOp s op).1.nextId := by
  cases op with
  | create t c =>
    cases hp : mkNoteCreate t c with
    | error e => simp [applyOp, hp]
    | ok p =>
      cases hc : NotesService.create s p with
      | error e => simp [applyOp, hp, hc]
      | ok r =>
        obtain ⟨n, s2⟩ := r
        obtain ⟨hg, hn, hst⟩ := create_eq_ok hc
        simp only [applyOp, hp, hc]
        subst hst
        dsimp only
        omega
  | update i t c =>
    cases hp : mkNoteUpdate t c with
    | error e => simp [applyOp, hp]
    | ok p =>
      cases hc : NotesService.update s i p with
      | error e => simp [applyOp, hp, hc]
      | ok r =>
        obtain ⟨n, s2⟩ := r
        obtain ⟨old, hg, ht, hn, hst⟩ := update_eq_ok hc
        simp only [applyOp, hp, hc]
        subst hst
        dsimp only
        omega
  | delete i =>
    cases hc : NotesService.delete s i with
    | error e => simp [applyOp, hc]
    | ok s2 =>
      obtain ⟨hsome, hst⟩ := delete_eq_ok hc
      simp only [applyOp, hc]
      subst hst
      dsimp only
      omega

theorem applyOp_assigned {s : NotesState} {op : Op} {i : Nat}
    (h : (applyOp s op).2 = some i) :
    i = s.nextId ∧ (applyOp s op).1.nextId = s.nextId + 1 := by
  cases op with
  | create t c =>
    cases hp : mkNoteCreate t c with
    | error e => simp [applyOp, hp] at h
    | ok p =>
      cases hc : NotesService.create s p with
      | error e => simp [applyOp, hp, hc] at h
      | ok r =>
        obtain ⟨n, s2⟩ := r
        obtain ⟨hg, hn, hst⟩ := create_eq_ok hc
        simp only [applyOp, hp, hc] at h ⊢
        simp only [Option.some_inj] at h
        subst hn
        subst hst
        exact ⟨h.symm, rfl⟩
  | update i2 t c =>
    cases hp : mkNoteUpdate t c with
    | error e => simp [applyOp, hp] at h
    | ok p =>
      cases hc : NotesService.update s i2 p with
      | error e => simp [applyOp, hp, hc] at h
      | ok r =>
        obtain ⟨n, s2⟩ := r
        simp [applyOp, hp, hc] at h
  | delete i2 =>
    cases hc : NotesService.delete s i2 with
    | error e => simp [applyOp, hc] at h
    | ok s2 => simp [applyOp, hc] at h

theorem runOps_nextId_le (s : NotesState) (ops : List Op) :
    s.nextId ≤ (runOps s ops).1.nextId := by
  induction ops generalizing s with
  | nil => exact le_refl _
  | cons op ops ih =>
    have h1 := applyOp_nextId_le s op
    have h2 := ih (applyOp s op).1
    unfold runOps
    dsimp only
    omega

theorem runOps_assigned_lb (s : NotesState) (ops : List Op) :
    ∀ i ∈ (runOps s ops).2, s.nextId ≤ i := by
  induction ops generalizing s with
  | nil =>
    intro i hi
    simp [runOps] at hi
  | cons op ops ih =>
    intro i hi
    unfold runOps at hi
    dsimp only at hi
    cases ha : (applyOp s op).2 with
    | none =>
      rw [ha] at hi
      have h1 := applyOp_nextId_le s op
      have h2 := ih (applyOp s op).1 i hi
      omega
    | some j =>
      rw [ha] at hi
      rcases List.mem_cons.mp hi with h1 | h2
      · subst h1
        exact le_of_eq (applyOp_assigned ha).1.symm
      · have h3 := (applyOp_assigned ha).2
        have h4 := ih (applyOp s op).1 i h2
        omega

/-- Run a list of operations, all of which must succeed. -/
def runAll (s : NotesState) : List Op → Option NotesState
  | [] => some s
  | op :: ops =>
    match stepOp s op with
    | none => none
    | some s2 => runAll s2 ops

def Op.isCreate : Op → Bool
  | .create _ _ => true
  | _ => false

def Op.isDelete : Op → Bool
  | .delete _ => true
  | _ => false

/-- The id a delete operation targets, `none` for the other kinds. -/
def Op.deleteId : Op → Option Nat
  | .delete i => some i
  | _ => none

theorem stepOp_create_length {s s2 : NotesState} {t : String}
    {c : Option String} (hs : StateInv s)
    (h : stepOp s (.create t c) = some s2) :
    s2.store.length = s.store.length + 1 := by
  unfold stepOp at h
  cases hp : mkNoteCreate t c with
  | error e => simp [hp] at h
  | ok p =>
    simp only [hp] at h
    cases hc : NotesService.create s p with
    | error e => simp [hc] at h
    | ok r =>
      obtain ⟨n, s3⟩ := r
      simp only [hc, Option.some_inj] at h
      subst h
      obtain ⟨hg, hn, hst⟩ := create_eq_ok hc
      subst hst
      dsimp only
      exact length_dictInsert_new n (dictGet_nextId_none hs)

theorem stepOp_delete_length {s s2 : NotesState} {i : Nat}
    (hs : StateInv s) (h : stepOp s (.delete i) = some s2) :
    s2.store.length + 1 = s.store.length := by
  unfold stepOp at h
  cases hc : NotesService.delete s i with
  | error e => simp [hc] at h
  | ok s3 =>
    simp only [hc, Option.some_inj] at h
    subst h
    obtain ⟨hsome, hst⟩ := delete_eq_ok hc
    subst hst
    exact length_dictDelete hs.1 hsome

/-! ### Example states for the witnesses -/

/-- The note held by `exState`. -/
def exNote : Note :=
  { id := 0, title := "a", content := some "c", created_at := 0,
    updated_at := 0 }

/-- A one-note state: the result of one create on the empty store. -/
def exState : NotesState :=
  { store := [(0, exNote)], nextId := 1, clock := 1 }

theorem exState_reachable : Reachable exState :=
  Reachable.step (.create "a" (some "c")) Reachable.init (by decide)

/-- What the `NoteUpdate` validator guarantees of a parsed payload: a
present title is stripped and non-empty. -/
def NoteUpdateWF (p : NoteUpdate) : Prop :=
  match p.title with
  | none => True
  | some t => pyStrip t = t ∧ t ≠ ""

instance (p : NoteUpdate) : Decidable (NoteUpdateWF p) := by
  unfold NoteUpdateWF
  cases p.title with
  | none => exact inferInstance
  | some t => exact inferInstance

theorem mkNoteUpdate_wf {t c : Option String} {p : NoteUpdate}
    (h : mkNoteUpdate t c = .ok p) : NoteUpdateWF p := by
  unfold mkNoteUpdate at h
  cases t with
  | none =>
    simp only [Except.ok.injEq] at h
    subst h
    trivial
  | some t2 =>
    by_cases hs : pyStrip t2 = ""
    · simp [hs] at h
    · simp only [if_neg hs, Except.ok.injEq] at h
      subst h
      exact ⟨pyStrip_idem t2, fun he => hs (by rw [← pyStrip_idem t2, he]; rfl)⟩

/-! ### The claims -/

/-- C1: `update(id, title?, content?)` fails with `NotFound` exactly when
no note has the id; otherwise it succeeds, overwrites only the supplied
fields, leaves unsupplied fields at their prior values, stamps
`updated_at` with the current time regardless of which fields changed,
and stores and returns the updated note. `StateInv` holds of every
reachable state (`reachable_inv`); `NoteUpdateWF` holds of every payload
the `NoteUpdate` validator accepts (`mkNoteUpdate_wf`). -/
theorem update_supplied_fields_contract (s : NotesState) (i : Nat)
    (p : NoteUpdate) (hs : StateInv s) (hp : NoteUpdateWF p) :
    (dictGet i s.store = none →
      NotesService.update s i p = .error .notFound) ∧
    (∀ old, dictGet i s.store = some old →
      ∃ n s2, NotesService.update s i p = .ok (n, s2) ∧
        (∀ t, p.title = some t → n.title = t) ∧
        (p.title = none → n.title = old.title) ∧
        (∀ c, p.content = some c → n.content = some c) ∧
        (p.content = none → n.content = old.content) ∧
        n.id = old.id ∧ n.created_at = old.created_at ∧
        n.updated_at = s.clock ∧
        NotesService.get s2 i = .ok n) := by
  constructor
  · exact update_absent p
  · intro old hold
    obtain ⟨hkey, hinv⟩ := hs.2 (i, old) (dictGet_mem hold)
    have h1 := hinv.1
    have h2 := hinv.2.1
    dsimp only at h1 h2
    have ht : pyStrip (chooseTitle p old) ≠ "" := by
      cases hpt : p.title with
      | none =>
        simp only [chooseTitle, hpt]
        rw [h1]
        exact h2
      | some t =>
        unfold NoteUpdateWF at hp
        rw [hpt] at hp
        simp only [chooseTitle, hpt]
        rw [hp.1]
        exact hp.2
    refine ⟨_, _, update_ok hold ht, ?_, ?_, ?_, ?_, rfl, rfl, rfl, ?_⟩
    · intro t hpt
      unfold NoteUpdateWF at hp
      rw [hpt] at hp
      show pyStrip (chooseTitle p old) = t
      simp only [chooseTitle, hpt]
      exact hp.1
    · intro hpt
      show pyStrip (chooseTitle p old) = old.title
      simp only [chooseTitle, hpt]
      exact h1
    · intro c hpc
      show chooseContent p old = some c
      simp only [chooseContent, hpc]
    · intro hpc
      show chooseContent p old = old.content
      simp only [chooseContent, hpc]
    · apply get_found
      exact dictGet_insert_self i _ s.store

/-- Witness for C1: a concrete state, id and payload. -/
theorem update_supplied_fields_contract_witness :
    ∃ n s2, NotesService.update exState 0
        { title := some "b", content := none } = .ok (n, s2) ∧
      (∀ t, (some "b" : Option String) = some t → n.title = t) ∧
      ((some "b" : Option String) = none → n.title = exNote.title) ∧
      (∀ c, (none : Option String) = some c → n.content = some c) ∧
      ((none : Option String) = none → n.content = exNote.content) ∧
      n.id = exNote.id ∧ n.created_at = exNote.created_at ∧
      n.updated_at = exState.clock ∧
      NotesService.get s2 0 = .ok n :=
  (update_supplied_fields_contract exState 0
      { title := some "b", content := none } (by decide) (by decide)).2
    exNote (by decide)

/-- C2: after a successful `update(id, title="X")` with content not
supplied, `get(id)` returns the updated note: title `"X"`, the prior
content, id and `created_at` unchanged, and `updated_at` strictly later
than the prior `updated_at`. The hypotheses on `x` are what the
`NoteUpdate` validator guarantees of a title it accepts. -/
theorem update_title_then_get (s : NotesState) (i : Nat) (x : String)
    (old : Note) (hs : StateInv s) (hold : dictGet i s.store = some old)
    (hx : pyStrip x = x) (hne : x ≠ "") :
    ∃ n s2, NotesService.update s i { title := some x, content := none }
        = .ok (n, s2) ∧
      NotesService.get s2 i = .ok n ∧ n.title = x ∧
      n.content = old.content ∧ n.id = old.id ∧
      n.created_at = old.created_at ∧ old.updated_at < n.updated_at := by
  have ht : pyStrip (chooseTitle { title := some x, content := none } old)
      ≠ "" := by
    simp only [chooseTitle]
    rw [hx]
    exact hne
  obtain ⟨hkey, hinv⟩ := hs.2 (i, old) (dictGet_mem hold)
  have hu := hinv.2.2.2.1
  dsimp only at hu
  refine ⟨_, _, update_ok hold ht, ?_, ?_, rfl, rfl, rfl, ?_⟩
  · apply get_found
    exact dictGet_insert_self i _ s.store
  · show pyStrip (chooseTitle { title := some x, content := none } old) = x
    simp only [chooseTitle]
    exact hx
  · exact hu

/-- Witness for C2: a concrete state, id and title. -/
theorem update_title_then_get_witness :
    ∃ n s2, NotesService.update exState 0
        { title := some "b", content := none } = .ok (n, s2) ∧
      NotesService.get s2 0 = .ok n ∧ n.title = "b" ∧
      n.content = exNote.content ∧ n.id = exNote.id ∧
      n.created_at = exNote.created_at ∧
      exNote.updated_at < n.updated_at :=
  update_title_then_get exState 0 "b" exNote (by decide) (by decide)
    (by decide) (by decide)

/-- C3: creating a note whose title is empty or whitespace-only after
trimming fails validation: the request layer answers 422 with a detail
naming the offending field (the title message of the validator), and no
note is inserted — the state is unchanged. -/
theorem create_empty_title_rejected (s : NotesState) (title : String)
    (content : Option String) (h : pyStrip title = "") :
    (create_note s title content).1.status = 422 ∧
    (create_note s title content).1.detail
      = some "title must be a non-empty string" ∧
    (create_note s title content).2 = s := by
  unfold create_note mkNoteCreate
  simp [h]

/-- Witness for C3: a whitespace-only title against a concrete state. -/
theorem create_empty_title_rejected_witness :
    (create_note exState " " none).1.status = 422 ∧
    (create_note exState " " none).1.detail
      = some "title must be a non-empty string" ∧
    (create_note exState " " none).2 = exState :=
  create_empty_title_rejected exState " " none (by decide)

/-- C5: `delete(id)` fails with `NotFound` when the id is absent, and
otherwise removes the entry permanently: afterwards the id is gone from
the store, `get(id)` fails with `NotFound`, and a second `delete(id)`
also fails with `NotFound`. -/
theorem delete_contract (s : NotesState) (i : Nat) :
    (dictGet i s.store = none →
      NotesService.delete s i = .error .notFound) ∧
    (∀ old, dictGet i s.store = some old →
      ∃ s2, NotesService.delete s i = .ok s2 ∧
        dictGet i s2.store = none ∧
        NotesService.get s2 i = .error .notFound ∧
        NotesService.delete s2 i = .error .notFound) := by
  constructor
  · exact delete_absent
  · intro old hold
    have hsome : (dictGet i s.store).isSome = true := by simp [hold]
    refine ⟨_, delete_ok hsome, ?_, ?_, ?_⟩
    · exact dictGet_delete_self i s.store
    · exact get_absent (dictGet_delete_self i s.store)
    · exact delete_absent (dictGet_delete_self i s.store)

/-- Witness for C5: deleting the one note of a concrete state. -/
theorem delete_contract_witness :
    ∃ s2, NotesService.delete exState 0 = .ok s2 ∧
      dictGet 0 s2.store = none ∧
      NotesService.get s2 0 = .error .notFound ∧
      NotesService.delete s2 0 = .error .notFound :=
  (delete_contract exState 0).2 exNote (by decide)

/-- C8: after a successful create, `get` on the returned note's id
succeeds and returns a note field-for-field identical to the note
`create` returned. -/
theorem create_then_get_roundtrip (s : NotesState) (p : NoteCreate)
    (n : Note) (s2 : NotesState)
    (h : NotesService.create s p = .ok (n, s2)) :
    ∃ m, NotesService.get s2 n.id = .ok m ∧ m.id = n.id ∧
      m.title = n.title ∧ m.content = n.content ∧
      m.created_at = n.created_at ∧ m.updated_at = n.updated_at := by
  obtain ⟨hg, hn, hst⟩ := create_eq_ok h
  refine ⟨n, ?_, rfl, rfl, rfl, rfl, rfl⟩
  apply get_found
  have hid : n.id = s.nextId := by rw [hn]
  rw [hst, hid]
  exact dictGet_insert_self s.nextId n s.store

/-- The note returned by one more create on `exState`. -/
def exNote2 : Note :=
  { id := 1, title := "b", content := none, created_at := 1,
    updated_at := 1 }

/-- The state after that create. -/
def exState2 : NotesState :=
  { store := [(0, exNote), (1, exNote2)], nextId := 2, clock := 2 }

/-- Witness for C8: a concrete create followed by a get. -/
theorem create_then_get_roundtrip_witness :
    ∃ m, NotesService.get exState2 exNote2.id = .ok m ∧
      m.id = exNote2.id ∧ m.title = exNote2.title ∧
      m.content = exNote2.content ∧ m.created_at = exNote2.created_at ∧
      m.updated_at = exNote2.updated_at :=
  create_then_get_roundtrip exState { title := "b", content := none }
    exNote2 exState2 (by rfl)

/-- C10: pydantic parses an explicit JSON `null` content and an absent
content field to the same payload (`None`), so the two updates are the
same operation, and a successful such update leaves the stored note's
content unchanged — null never clears an existing content value. -/
theorem update_null_content_noop (s : NotesState) (i : Nat)
    (topt : Option String) (old n : Note) (s2 : NotesState)
    (hold : dictGet i s.store = some old)
    (h : NotesService.update s i
        { title := topt, content := parseUpdateContent (some none) }
        = .ok (n, s2)) :
    NotesService.update s i
        { title := topt, content := parseUpdateContent (some none) }
      = NotesService.update s i
        { title := topt, content := parseUpdateContent none } ∧
    n.content = old.content ∧
    NotesService.get s2 i = .ok n := by
  obtain ⟨old2, hg2, ht, hn, hst⟩ := update_eq_ok h
  have he : old = old2 := by
    rw [hold] at hg2
    exact Option.some_inj.mp hg2
  subst he
  refine ⟨rfl, ?_, ?_⟩
  · rw [hn]
    exact rfl
  · rw [hst]
    apply get_found
    exact dictGet_insert_self i n s.store

/-- The note after a content-null update of `exState`. -/
def exNote3 : Note :=
  { id := 0, title := "a", content := some "c", created_at := 0,
    updated_at := 1 }

/-- The state after that update. -/
def exState3 : NotesState :=
  { store := [(0, exNote3)], nextId := 1, clock := 2 }

/-- Witness for C10: a concrete update carrying an explicit null
content. -/
theorem update_null_content_noop_witness :
    NotesService.update exState 0
        { title := none, content := parseUpdateContent (some none) }
      = NotesService.update exState 0
        { title := none, content := parseUpdateContent none } ∧
    exNote3.content = exNote.content ∧
    NotesService.get exState3 0 = .ok exNote3 :=
  update_null_content_noop exState 0 none exNote exNote3 exState3
    (by decide) (by rfl)

/-- C4: over any sequence of create/update/delete operations, the ids
assigned by the successful creates are pairwise distinct — the
assigned-id trace keeps the ids of notes that were later deleted, so no
id is ever reused. Holds from any starting state, in particular over the
store's whole lifetime from `initState`. -/
theorem created_ids_nodup (s : NotesState) (ops : List Op) :
    ((runOps s ops).2).Nodup := by
  induction ops generalizing s with
  | nil => simp [runOps]
  | cons op ops ih =>
    unfold runOps
    dsimp only
    cases ha : (applyOp s op).2 with
    | none => exact ih (applyOp s op).1
    | some j =>
      show (j :: (runOps (applyOp s op).1 ops).2).Nodup
      rw [List.nodup_cons]
      refine ⟨?_, ih (applyOp s op).1⟩
      intro hj
      have h1 := (applyOp_assigned ha).1
      have h2 := (applyOp_assigned ha).2
      have h3 := runOps_assigned_lb (applyOp s op).1 ops j hj
      omega

/-- C6: in every reachable store state, every stored note's title is
neither empty nor whitespace-only; all three mutating operations
preserve this. -/
theorem reachable_titles_nonblank (s : NotesState) (h : Reachable s) :
    ∀ q ∈ s.store, q.2.title ≠ "" ∧ pyStrip q.2.title ≠ "" := by
  intro q hq
  obtain ⟨hkey, hinv⟩ := (reachable_inv h).2 q hq
  refine ⟨hinv.2.1, ?_⟩
  rw [hinv.1]
  exact hinv.2.1

/-- Witness for C6: the note of a concrete reachable state. -/
theorem reachable_titles_nonblank_witness :
    exNote.title ≠ "" ∧ pyStrip exNote.title ≠ "" :=
  reachable_titles_nonblank exState exState_reachable (0, exNote)
    (by decide)

/-- C7: in every reachable store state, every stored note satisfies
`updated_at ≥ created_at`: create sets `created_at = updated_at = now`,
and every successful update refreshes `updated_at` to a strictly later
now. -/
theorem reachable_updated_ge_created (s : NotesState) (h : Reachable s) :
    ∀ q ∈ s.store, q.2.created_at ≤ q.2.updated_at := by
  intro q hq
  exact ((reachable_inv h).2 q hq).2.2.2.1

/-- Witness for C7: the note of a concrete reachable state. -/
theorem reachable_updated_ge_created_witness :
    exNote.created_at ≤ exNote.updated_at :=
  reachable_updated_ge_created exState exState_reachable (0, exNote)
    (by decide)

/-- C9: from any state satisfying the store invariant, a sequence of
creates and deletes in which every operation succeeds and no id is
deleted twice changes the number of notes `list()` returns by exactly
(number of creates) − (number of deletes). -/
theorem list_length_after_creates_deletes (s s2 : NotesState)
    (ops : List Op) (hs : StateInv s)
    (hcd : ∀ op ∈ ops, op.isCreate = true ∨ op.isDelete = true)
    (hnd : (ops.filterMap Op.deleteId).Nodup)
    (h : runAll s ops = some s2) :
    ((NotesService.list s2).length : Int) =
      (NotesService.list s).length
        + ops.countP Op.isCreate - ops.countP Op.isDelete := by
  induction ops generalizing s with
  | nil =>
    unfold runAll at h
    simp only [Option.some_inj] at h
    subst h
    simp
  | cons op ops ih =>
    unfold runAll at h
    cases hst : stepOp s op with
    | none =>
      rw [hst] at h
      simp at h
    | some s3 =>
      rw [hst] at h
      have hs3 := stepOpInv hs hst
      have hcd2 : ∀ op2 ∈ ops, op2.isCreate = true ∨ op2.isDelete = true :=
        fun op2 h2 => hcd op2 (List.mem_cons_of_mem _ h2)
      rcases hcd op (List.mem_cons_self _ _) with hcr | hdel
      · cases op with
        | update i t c => simp [Op.isCreate] at hcr
        | delete i => simp [Op.isCreate] at hcr
        | create t c =>
          have hlen := stepOp_create_length hs hst
          have hnd2 : (ops.filterMap Op.deleteId).Nodup := by
            simpa [List.filterMap_cons, Op.deleteId] using hnd
          have hrec := ih s3 hs3 hcd2 hnd2 h
          simp only [NotesService.list, List.length_map] at hrec ⊢
          rw [List.countP_cons, List.countP_cons]
          simp [Op.isCreate, Op.isDelete]
          omega
      · cases op with
        | create t c => simp [Op.isDelete] at hdel
        | update i t c => simp [Op.isDelete] at hdel
        | delete i =>
          have hlen := stepOp_delete_length hs hst
          have hnd2 : (ops.filterMap Op.deleteId).Nodup := by
            have hnd3 : (i :: ops.filterMap Op.deleteId).Nodup := by
              simpa [List.filterMap_cons, Op.deleteId] using hnd
            exact (List.nodup_cons.mp hnd3).2
          have hrec := ih s3 hs3 hcd2 hnd2 h
          simp only [NotesService.list, List.length_map] at hrec ⊢
          rw [List.countP_cons, List.countP_cons]
          simp [Op.isCreate, Op.isDelete]
          omega

/-- The create/create/delete trace used by the C9 witness. -/
def exOps : List Op :=
  [.create "a" (some "c"), .create "b" none, .delete 0]

/-- The state that trace produces from the empty store. -/
def exFinal : NotesState :=
  { store := [(1, exNote2)], nextId := 2, clock := 2 }

/-- Witness for C9: two creates and one delete from the empty store
leave exactly one note. -/
theorem list_length_after_creates_deletes_witness :
    ((NotesService.list exFinal).length : Int) =
      (NotesService.list initState).length
        + exOps.countP Op.isCreate - exOps.countP Op.isDelete :=
  list_length_after_creates_deletes initState exFinal exOps
    (by decide) (by decide) (by decide) (by decide)

end NotesApi

